import Mathlib

/-!
Verification development for the causal-estimation and robustness engine of
the research-assistant repository (`research_assistant_ai`): the
difference-in-differences, event-study, interrupted-time-series,
regression-discontinuity and synthetic-control estimators, the donor-pool
search, the BIC model comparison, the Fisher pre-period joint test and the
placebo sweeps.

Conventions of the embedding:
* Panel cells are rationals (`ℚ`): the Python code computes with IEEE floats,
  and every property checked here is about the ideal (real-valued) semantics
  of those computations, which the rationals realise exactly for the
  operations involved (`+`, `-`, `*`, `/`, `max`, comparisons).  Where the
  code applies a transcendental library function (`exp`, `log`) the embedding
  works in `ℝ` with Mathlib's exact functions.
* Unit and period identifiers are `String`s, compared lexicographically by
  code point exactly as Python compares `str` values (the code casts period
  columns with `astype(str)` before comparing).  We implement the comparison
  ourselves (`strLeB`) so that it evaluates inside the kernel.
* `NaN` results (`float("nan")`) are modelled as `none` of an `Option`.
* A Python function that can raise is modelled with `Option`/`Except`.
* Library calls from outside the repository that no claim constrains
  numerically — the t-distribution p-values of `statsmodels`, the χ²
  distribution function of `scipy` — are passed in as function parameters, so
  every theorem holds for the actual library functions.
-/

namespace ResearchAssistantAI

/-! ## Lexicographic string order (Python `str` comparison) -/

/-- Lexicographic `≤` on character lists by code point, exactly Python's
string comparison. -/
def lexLeB : List Char → List Char → Bool
  | [], _ => true
  | _ :: _, [] => false
  | a :: as, b :: bs =>
    if a.toNat < b.toNat then true
    else if b.toNat < a.toNat then false
    else lexLeB as bs

/-- Python `a <= b` on strings. -/
def strLeB (a b : String) : Bool := lexLeB a.data b.data

/-- Python `a < b` on strings: the strict part of the (total) lexicographic
order, i.e. the negation of `b <= a`. -/
def strLtB (a b : String) : Bool := !(strLeB b a)

/-- The `≤` comparison as a relation, for the sorting interface. -/
def strLe (a b : String) : Prop := strLeB a b = true

instance : DecidableRel strLe := fun a b => inferInstanceAs (Decidable (strLeB a b = true))

/-- Python `sorted(xs.unique().tolist())`: distinct values (first occurrence
order) sorted ascending. -/
def sortedUnique (l : List String) : List String :=
  List.insertionSort strLe l.dedup

/-! ## Numeric helpers -/

/-- Dot product of two vectors (`numpy`'s `@` on aligned 1-d arrays). -/
def dot (a b : List ℚ) : ℚ := (List.zipWith (· * ·) a b).sum

/-- Arithmetic mean (`numpy.mean`); `none` stands for the `NaN` that `numpy`
produces on an empty array. -/
def listMean (l : List ℚ) : Option ℚ :=
  if l.isEmpty then none else some (l.sum / l.length)

/-! ## The regression backbone

The estimators delegate to `statsmodels` OLS.  `statsmodels` computes the
coefficient vector as the (pseudoinverse-based) least-squares solution of the
design; when the Gram matrix `XᵀX` is invertible this is the unique solution
of the normal equations `XᵀX β = Xᵀy`, which the Gaussian elimination below
finds.  In the rank-deficient case `statsmodels` silently returns the
minimum-norm solution; the embedding returns the zero vector there (no claim
constrains coefficient values in that case).  The inferential output
(p-values) is computed by the library from a t distribution — a
transcendental function outside this repository — so estimators take it as a
function parameter `pfun` mapping the regression data and a column index to
that column's p-value; every theorem below holds for the actual library
function.  HAC (`ITS`) and cluster (`DiD`) covariance adjustments change only
those p-values, never the coefficients, so they are absorbed into `pfun`. -/

/-- One regression observation: the design-matrix row and the response. -/
abbrev Obs := List ℚ × ℚ

/-- Entry `(i, j)` of the Gram matrix `XᵀX` as a sum over observations. -/
def gram (m : ℕ) (obs : List Obs) : List (List ℚ) :=
  (List.range m).map fun i =>
    (List.range m).map fun j =>
      (obs.map fun ob => ob.1.getD i 0 * ob.1.getD j 0).sum

/-- The moment vector `Xᵀy` as a sum over observations. -/
def moment (m : ℕ) (obs : List Obs) : List ℚ :=
  (List.range m).map fun i => (obs.map fun ob => ob.1.getD i 0 * ob.2).sum

/-- Pick the first equation whose leading coefficient is non-zero, returning
it together with the remaining equations. -/
def findPivot : List (List ℚ × ℚ) → Option ((List ℚ × ℚ) × List (List ℚ × ℚ))
  | [] => none
  | r :: rs =>
    if r.1.headD 0 ≠ 0 then some (r, rs)
    else
      match findPivot rs with
      | none => none
      | some (p, rest) => some (p, r :: rest)

/-- Eliminate the leading variable of `row` using the pivot equation. -/
def elimRow (piv row : List ℚ × ℚ) : List ℚ × ℚ :=
  let p := piv.1.headD 1
  let c := row.1.headD 0
  (List.zipWith (fun x y => x - c / p * y) row.1.tail piv.1.tail,
    row.2 - c / p * piv.2)

/-- Gaussian elimination on a square system given as `(coefficients, rhs)`
pairs; `none` when the system is singular in a pivot column. -/
def gaussSolve : ℕ → List (List ℚ × ℚ) → Option (List ℚ)
  | 0, _ => some []
  | n + 1, sys =>
    match findPivot sys with
    | none => none
    | some (piv, rest) =>
      match gaussSolve n (rest.map (elimRow piv)) with
      | none => none
      | some xs =>
        let p := piv.1.headD 1
        some ((piv.2 - dot piv.1.tail xs) / p :: xs)

/-- Coefficient vector of the OLS fit: the normal-equation solution when the
Gram matrix is invertible, the zero vector in the degenerate case (where the
library would return the minimum-norm pseudoinverse solution). -/
def olsParams (m : ℕ) (obs : List Obs) : List ℚ :=
  (gaussSolve m ((gram m obs).zip (moment m obs))).getD (List.replicate m 0)

/-- Abstraction of the p-value computation of the regression library. -/
abbrev PFun := List Obs → ℕ → ℚ

/-! ## Synthetic control (`models/causal_plus.py`, `synthetic_control`) -/

/-- One panel record for the synthetic-control estimator: unit identifier,
period (already a string, as after `astype(str)`), outcome. -/
structure SCRow where
  unit : String
  time : String
  y : ℚ
deriving DecidableEq

/-- Value of unit `u` at period `t`: the cell of the series after
`set_index(time_col)[y_col]`.  `find?` takes the first matching record; a
panel with a duplicated (unit, period) pair makes the Python `reindex` raise,
so such inputs are outside every claim's scope. -/
def lookupY (rows : List SCRow) (u t : String) : Option ℚ :=
  (rows.find? fun r => r.unit == u && r.time == t).map SCRow.y

/-- The `reindex(times).ffill().fillna(0.0)` series of unit `u`: walk the
requested periods carrying the last seen value forward, 0 before the first
observed value. -/
def ffillVals (rows : List SCRow) (u : String) : List String → Option ℚ → List ℚ
  | [], _ => []
  | t :: ts, prev =>
    let cur := match lookupY rows u t with
      | some v => some v
      | none => prev
    cur.getD 0 :: ffillVals rows u ts cur

/-- The `_series(u, times)` helper of `synthetic_control`. -/
def seriesVals (rows : List SCRow) (u : String) (ts : List String) : List ℚ :=
  ffillVals rows u ts none

/-- The default donor list: the sorted distinct units other than the treated
unit. -/
def scDefaultDonors (rows : List SCRow) (treated_unit : String) : List String :=
  List.insertionSort strLe
    (((rows.map SCRow.unit).dedup).filter fun u => u != treated_unit)

/-- The donor list `donor_units or sorted(...)`: Python's `or` takes the
supplied list only when it is truthy, so both `None` and an explicitly
supplied empty list fall back to the default donors. -/
def scDonors (rows : List SCRow) (treated_unit : String)
    (donor_units : Option (List String)) : List String :=
  match donor_units with
  | some l => if l.isEmpty then scDefaultDonors rows treated_unit else l
  | none => scDefaultDonors rows treated_unit

/-- One step of CPython dict construction: a repeated key updates the stored
value in place (keeping the key's original position), a new key is
appended. -/
def dictInsert (d : List (String × ℚ)) (k : String) (v : ℚ) : List (String × ℚ) :=
  if d.any fun p => p.1 == k then d.map fun p => if p.1 == k then (k, v) else p
  else d ++ [(k, v)]

/-- The dict built from key-value pairs in order (the comprehension
`{str(donors[i]): float(w[i]) for i in range(len(donors))}`): duplicate keys
collapse, the last value wins, insertion order of first occurrences is
kept. -/
def pyDict (ps : List (String × ℚ)) : List (String × ℚ) :=
  ps.foldl (fun d p => dictInsert d p.1 p.2) []

/-- The global sorted period axis. -/
def scAllTimes (rows : List SCRow) : List String :=
  sortedUnique (rows.map SCRow.time)

/-- Periods strictly before the intervention. -/
def scPreTimes (rows : List SCRow) (intervention_time : String) : List String :=
  (scAllTimes rows).filter fun t => strLtB t intervention_time

/-- Periods at or after the intervention. -/
def scPostTimes (rows : List SCRow) (intervention_time : String) : List String :=
  (scAllTimes rows).filter fun t => strLeB intervention_time t

/-- The gradient `-2 · Xᵀ (Y - X w) / max(1, T)` of the pre-period squared
error.  `X` is the list of donor columns (each of the pre-period length `T`),
`Y` the treated pre-period series. -/
def scGrad (X : List (List ℚ)) (Y : List ℚ) (w : List ℚ) : List ℚ :=
  let T := Y.length
  let xrows := (List.range T).map fun t => X.map fun c => c.getD t 0
  let resid := List.zipWith (fun yv xr => yv - dot xr w) Y xrows
  X.map fun c => -2 * dot c resid / (max 1 T : ℕ)

/-- Projection back toward the simplex: clip to non-negativity, then
renormalize when the clipped sum is positive (`w.sum() > 0`). -/
def scProject (w1 : List ℚ) : List ℚ :=
  let w2 := w1.map fun x => max 0 x
  if 0 < w2.sum then w2.map fun x => x / w2.sum else w2

/-- One projected-gradient step of the weight fit (`lr = 0.05`). -/
def scStep (X : List (List ℚ)) (Y : List ℚ) (w : List ℚ) : List ℚ :=
  scProject (List.zipWith (fun wi gi => wi - 1 / 20 * gi) w (scGrad X Y w))

/-- The fitted weight vector: 4000 projected-gradient iterations from the
uniform start (`lr = 0.05`). -/
def scFitWeights (X : List (List ℚ)) (Y : List ℚ) (n : ℕ) : List ℚ :=
  Nat.iterate (scStep X Y) 4000 (List.replicate n (1 / (n : ℚ)))

/-- Result record of `synthetic_control`.  `pre_mse` carries the mean squared
pre-period error, of which the Python `pre_rmse` is the square root (kept
symbolic: the root is irrational in general, and every claim touches this
field only through its `NaN`-ness or by order comparisons, which the strictly
monotone square root preserves); `none` is the `NaN` of an empty pre- or
post-period. -/
structure SCResult where
  treated_unit : String
  donor_units : List String
  weights : List (String × ℚ)
  pre_mse : Option ℚ
  post_gap_mean : Option ℚ
  n_pre : ℕ
  n_post : ℕ
deriving DecidableEq

/-- The donor columns over a period axis (`np.vstack([_series(u, times) for
u in donors])`, one column per donor). -/
def scX (rows : List SCRow) (donors : List String) (ts : List String) :
    List (List ℚ) :=
  donors.map fun u => seriesVals rows u ts

/-- The weighted donor prediction `X @ w` over `T` periods. -/
def scYhat (X : List (List ℚ)) (w : List ℚ) (T : ℕ) : List ℚ :=
  (List.range T).map fun t => dot (X.map fun c => c.getD t 0) w

/-- Mean squared pre-period error (the square of the reported `pre_rmse`);
`none` is the `NaN` of an empty pre-period. -/
def scPreMse (Y yhat : List ℚ) : Option ℚ :=
  if Y.isEmpty then none
  else some ((List.zipWith (fun yv hv => (yv - hv) ^ 2) Y yhat).sum / (Y.length : ℚ))

/-- Mean post-period gap between the treated series and the weighted donor
prediction; `none` is the `NaN` of an empty post-period. -/
def scPostGap (rows : List SCRow) (treated_unit intervention_time : String)
    (donors : List String) (w : List ℚ) : Option ℚ :=
  let post := scPostTimes rows intervention_time
  if post.isEmpty then none
  else
    let Yp := seriesVals rows treated_unit post
    listMean (List.zipWith (· - ·) Yp (scYhat (scX rows donors post) w Yp.length))

/-- The successful branch of `synthetic_control` for a non-empty donor
list. -/
def scResult (rows : List SCRow) (treated_unit intervention_time : String)
    (donors : List String) : SCResult :=
  let pre := scPreTimes rows intervention_time
  let Y := seriesVals rows treated_unit pre
  let X := scX rows donors pre
  let w := scFitWeights X Y donors.length
  { treated_unit := treated_unit
    donor_units := donors
    weights := pyDict (donors.zip w)
    pre_mse := scPreMse Y (scYhat X w Y.length)
    post_gap_mean := scPostGap rows treated_unit intervention_time donors w
    n_pre := pre.length
    n_post := (scPostTimes rows intervention_time).length }

/-- The synthetic-control estimator of `models/causal_plus.py` (lines
123–183).  `none` models the `numpy` exception that an empty donor list
raises in `np.vstack`. -/
def synthetic_control (rows : List SCRow) (treated_unit intervention_time : String)
    (donor_units : Option (List String)) : Option SCResult :=
  let donors := scDonors rows treated_unit donor_units
  if donors.isEmpty then none
  else some (scResult rows treated_unit intervention_time donors)

/-! ## Interrupted time series (`models/causal_estimators.py`, lines 15–55) -/

/-- One observation for ITS: period (as string), outcome, covariate values
(the cells of `x_cols`, in column order). -/
structure ITSRow where
  time : String
  y : ℚ
  xs : List ℚ
deriving DecidableEq

/-- Row order of `sort_values(time_col)`. -/
def itsRowLe (a b : ITSRow) : Prop := strLe a.time b.time

instance : DecidableRel itsRowLe := fun a b =>
  inferInstanceAs (Decidable (strLeB a.time b.time = true))

/-- Result of `interrupted_time_series`; the model summary's `aic`/`bic`
(log-likelihood based, transcendental) are outside every claim and omitted. -/
structure ITSResult where
  level_change : ℚ
  slope_change : ℚ
  p_level : ℚ
  p_slope : ℚ
  n : ℕ
deriving DecidableEq

/-- The ITS estimator: sort by period, raise unless some observation's period
is at or after the intervention time, regress
`y ~ const + _t + _post + _t_post + covariates` (HAC standard errors change
only the p-values, which `pfun` abstracts). -/
def interrupted_time_series (pfun : PFun) (nx : ℕ) (rows : List ITSRow)
    (intervention_time : String) : Except String ITSResult :=
  let d := List.insertionSort itsRowLe rows
  if d.any (fun r => strLeB intervention_time r.time) then
    let t0 := d.findIdx fun r => strLeB intervention_time r.time
    let obs : List Obs := d.enum.map fun p =>
      let post : ℚ := if t0 ≤ p.1 then 1 else 0
      ([1, (p.1 : ℚ), post, ((p.1 : ℚ) - (t0 : ℚ)) * post] ++
        (p.2.xs.takeD nx 0), p.2.y)
    let β := olsParams (4 + nx) obs
    Except.ok
      { level_change := β.getD 2 0
        slope_change := β.getD 3 0
        p_level := pfun obs 2
        p_slope := pfun obs 3
        n := d.length }
  else Except.error "intervention_time is after all observations."

/-! ## Regression discontinuity (`models/causal_estimators.py`, lines 57–103) -/

/-- One observation for RDD: running variable, outcome, covariates. -/
structure RDDRow where
  running : ℚ
  y : ℚ
  xs : List ℚ
deriving DecidableEq

/-- Result of `regression_discontinuity`. -/
structure RDDResult where
  discontinuity : ℚ
  p_value : ℚ
  bandwidth : ℚ
  n : ℕ
deriving DecidableEq

/-- The RDD estimator: center the running variable on the cutoff, keep
observations within the bandwidth, raise when fewer than 20 remain, regress
`y ~ const + _r + _treat + _r_treat + covariates`. -/
def regression_discontinuity (pfun : PFun) (nx : ℕ) (rows : List RDDRow)
    (cutoff bandwidth : ℚ) : Except String RDDResult :=
  let kept := rows.filter fun r => |r.running - cutoff| ≤ bandwidth
  if kept.length < 20 then
    Except.error "Not enough observations in bandwidth to fit RDD."
  else
    let obs : List Obs := kept.map fun r =>
      let rc := r.running - cutoff
      let treat : ℚ := if 0 ≤ rc then 1 else 0
      ([1, rc, treat, rc * treat] ++ r.xs.takeD nx 0, r.y)
    let β := olsParams (4 + nx) obs
    Except.ok
      { discontinuity := β.getD 2 0
        p_value := pfun obs 2
        bandwidth := bandwidth
        n := kept.length }

/-! ## Difference in differences (`models/causal_plus.py`, lines 13–47) -/

/-- One panel record for DiD: unit and period identifiers, outcome, treated
and post indicator columns (numeric, as stored in the frame), covariate cells
keyed by column name. -/
structure DRow where
  unit : String
  time : String
  y : ℚ
  treated : ℚ
  post : ℚ
  covs : List (String × ℚ)
deriving DecidableEq

/-- Python's `astype(int)` on a numeric cell: truncation toward zero. -/
def pyInt (q : ℚ) : ℤ := q.num.tdiv q.den

/-- Treatment-coded dummy columns of a categorical term `C(col)`: one
indicator per level except the first (the reference level). -/
def dummies (levels : List String) (v : String) : List ℚ :=
  levels.tail.map fun l => if v == l then 1 else 0

/-- Sorted distinct unit levels (the categories of `astype("category")`). -/
def didUnits (rows : List DRow) : List String := sortedUnique (rows.map DRow.unit)

/-- Sorted distinct period levels. -/
def didTimes (rows : List DRow) : List String := sortedUnique (rows.map DRow.time)

/-- Covariate cell of a record, by column name. -/
def covVal (r : List (String × ℚ)) (c : String) : ℚ := (r.lookup c).getD 0

/-- The regression observations of the DiD formula
`y ~ treated + post + _int + covariates + C(unit) + C(time)`:
intercept, the raw treated and post columns, the interaction
`treated.astype(int) * post.astype(int)`, the requested covariates and the
two fixed-effect dummy blocks. -/
def didObs (rows : List DRow) (x_cols : List String) : List Obs :=
  let units := didUnits rows
  let times := didTimes rows
  rows.map fun r =>
    ([1, r.treated, r.post, ((pyInt r.treated * pyInt r.post : ℤ) : ℚ)] ++
      x_cols.map (covVal r.covs) ++ dummies units r.unit ++ dummies times r.time,
      r.y)

/-- Width of the DiD design matrix. -/
def didM (rows : List DRow) (x_cols : List String) : ℕ :=
  4 + x_cols.length + ((didUnits rows).length - 1) + ((didTimes rows).length - 1)

/-- Residual sum of squares of a fitted coefficient vector. -/
def rss (obs : List Obs) (β : List ℚ) : ℚ :=
  (obs.map fun ob => (ob.2 - dot ob.1 β) ^ 2).sum

/-- Total sum of squares of the responses. -/
def tss (obs : List Obs) : ℚ :=
  let ybar := (obs.map Prod.snd).sum / (obs.length : ℚ)
  (obs.map fun ob => (ob.2 - ybar) ^ 2).sum

/-- Result of `difference_in_differences`; the model summary is the dict
`{"n": ..., "r2": ...}` — note it carries no `bic`/`aic` key. -/
structure DiDResult where
  att : ℚ
  p_value : ℚ
  n : ℕ
  r2 : ℚ
deriving DecidableEq

/-- The two-way fixed-effects DiD estimator.  The `_int` coefficient is the
ATT; clustering (`cluster_col`) changes only the p-value, absorbed into
`pfun`. -/
def difference_in_differences (pfun : PFun) (rows : List DRow)
    (x_cols : List String) : DiDResult :=
  let obs := didObs rows x_cols
  let β := olsParams (didM rows x_cols) obs
  { att := β.getD 3 0
    p_value := pfun obs 3
    n := rows.length
    r2 := 1 - rss obs β / tss obs }

/-! ## Event study (`models/causal_plus.py`, lines 49–120) -/

/-- One panel record for the event study: as for DiD plus the integer
relative-time offset column. -/
structure ESRow where
  unit : String
  time : String
  y : ℚ
  treated : ℚ
  event_time : ℤ
  covs : List (String × ℚ)
deriving DecidableEq

/-- The offsets that get a dummy: `range(k_min, k_max + 1)` without the
baseline offset `omit_k`. -/
def esKs (k_min k_max omit_k : ℤ) : List ℤ :=
  ((List.range (k_max + 1 - k_min).toNat).map fun i : ℕ => k_min + (i : ℤ)).filter
    fun k => k != omit_k

/-- Result of `event_study`: offset-keyed coefficient and p-value
associations (the Python dicts, in insertion order). -/
structure EventStudyResult where
  coef_by_k : List (ℤ × ℚ)
  p_by_k : List (ℤ × ℚ)
  n : ℕ

/-- The event-study estimator: one `treated × (event_time == k)` dummy per
offset in `esKs`, formula
`y ~ treated + k_terms + covariates + C(unit) + C(time)`. -/
def event_study (pfun : PFun) (rows : List ESRow) (x_cols : List String)
    (k_min k_max omit_k : ℤ) : EventStudyResult :=
  let ks := esKs k_min k_max omit_k
  let units := sortedUnique (rows.map ESRow.unit)
  let times := sortedUnique (rows.map ESRow.time)
  let obs : List Obs := rows.map fun r =>
    ([1, r.treated] ++
      ks.map (fun k => (if r.event_time == k then (1 : ℚ) else 0) * (pyInt r.treated : ℚ)) ++
      x_cols.map (covVal r.covs) ++ dummies units r.unit ++ dummies times r.time,
      r.y)
  let m := 2 + ks.length + x_cols.length + ((units.length - 1) + (times.length - 1))
  let β := olsParams m obs
  { coef_by_k := ks.enum.map fun p => (p.2, β.getD (2 + p.1) 0)
    p_by_k := ks.enum.map fun p => (p.2, pfun obs (2 + p.1))
    n := rows.length }

/-! ## BIC model comparison (`models/model_comparison.py`) -/

/-- Akaike-style weights from a list of BIC values (`bic_weights`, lines
17–22): `exp(-0.5 · (b - min))` normalized by the total (the Python
`sum(w) or 1.0` keeps 1.0 only when the sum is falsy, i.e. 0.0 — for the
exact exponential that happens only on the empty list).  `min` of the empty
list raises in Python; the `getD 0` branch is then irrelevant because the
result is `[]` either way. -/
noncomputable def bic_weights (bics : List ℝ) : List ℝ :=
  let bmin := bics.min?.getD 0
  let w := bics.map fun b => Real.exp (-(1 / 2) * (b - bmin))
  let s0 := w.sum
  let s := if s0 = 0 then 1 else s0
  w.map fun wi => wi / s

/-- One scored DiD specification.  The DiD model summary holds only `n` and
`r2`: `get("bic", nan)` is always NaN, the `get("aic", 0.0)` fallback is
always 0.0, so every candidate's criterion is 0; likewise `get("k", 0)` is
always 0. -/
structure ModelScore where
  name : String
  bic : ℚ
  n : ℕ
  k : ℕ
  weight : ℝ
  att : ℚ
  p_value : ℚ

/-- The criterion value `compare_did_models` extracts from a DiD result: the
summary dict `{"n", "r2"}` has no `bic` key (NaN default) and no `aic` key,
so the fallback constant 0.0 is used for every model. -/
def didBic (_res : DiDResult) : ℚ := 0

/-- `compare_did_models` (lines 62–110): fit DiD under each candidate
covariate set, convert the criterion values to weights, and return the
scores sorted by weight descending (Python's stable `sorted(...,
reverse=True)`, modelled by a stable merge sort with the flipped
comparison). -/
noncomputable def compare_did_models (pfun : PFun) (rows : List DRow)
    (candidate_covariates : List (List String)) : List ModelScore :=
  let tmp := candidate_covariates.enum.map fun p =>
    let res := difference_in_differences pfun rows p.2
    ("did_spec_" ++ toString (p.1 + 1), didBic res, res)
  let ws := bic_weights (tmp.map fun t => ((t.2.1 : ℚ) : ℝ))
  let scores := List.zipWith
    (fun t w => ModelScore.mk t.1 t.2.1 t.2.2.n 0 w t.2.2.att t.2.2.p_value)
    tmp ws
  scores.mergeSort fun a b => decide (b.weight ≤ a.weight)

/-! ## Event-study pre-period joint test (`models/did_diagnostics.py`,
lines 70–94) -/

/-- The sorted offsets whose p-values get combined:
`sorted([k for k in coef_by_k.keys() if k <= k_pre_max])`. -/
def jointKs (coef_by_k : List (ℤ × ℝ)) (k_pre_max : ℤ) : List ℤ :=
  List.insertionSort (· ≤ ·)
    ((coef_by_k.map Prod.fst).filter fun k => decide (k ≤ k_pre_max))

/-- Result of the Fisher-combination joint test; `df_denom` is the literal
`float("nan")` of the source, modelled as `none`. -/
structure PrePeriodJointTestResult where
  k_values : List ℤ
  f_stat : ℝ
  p_value : ℝ
  df_denom : Option ℝ
  df_num : ℝ

/-- Fisher's method over the event-study p-values at offsets `≤ k_pre_max`:
sort those offsets, clamp each p-value into `[1e-12, 1]`, combine as
`-2 · Σ log p`, and refer to a χ² distribution with `2 · count` degrees of
freedom through the library distribution function `chi2cdf` (scipy's
`chi2.cdf`, passed in as a parameter).  A `KeyError` (an offset present in
`coef_by_k` but missing from `p_by_k`) propagates as an error, as in
Python. -/
noncomputable def event_study_preperiod_joint_test (chi2cdf : ℝ → ℝ → ℝ)
    (coef_by_k p_by_k : List (ℤ × ℝ)) (k_pre_max : ℤ) :
    Except String PrePeriodJointTestResult :=
  let ks := jointKs coef_by_k k_pre_max
  if ks.isEmpty then
    Except.error "No pre-period coefficients available for joint test."
  else
    match ks.mapM fun k => p_by_k.lookup k with
    | none => Except.error "KeyError"
    | some ps0 =>
      let ps := ps0.map fun p => max (1 / 10 ^ 12) (min 1 p)
      let stat := -2 * (ps.map Real.log).sum
      let dfn := 2 * (ps.length : ℝ)
      Except.ok
        { k_values := ks
          f_stat := stat
          p_value := 1 - chi2cdf stat dfn
          df_denom := none
          df_num := dfn }

/-! ## Synthetic-control placebo sweep (`assistant/robustness.py`,
lines 36–53) -/

/-- One trial record of the placebo sweep: the unit treated in this trial
and either the fit's `(pre_mse, post_gap_mean)` summary or `none` for the
caught-exception error entry (`{"placebo_treated": u, "error": ...}`). -/
structure PlaceboRecord where
  placebo_treated : String
  outcome : Option (Option ℚ × Option ℚ)
deriving DecidableEq

set_option linter.unusedVariables false in
/-- The placebo sweep: for every distinct unit of the panel (sorted), re-run
the baseline synthetic-control fit with that unit as the treated one,
catching per-trial failures as error entries.  Note the `treated_unit`
argument: the source accepts it but never reads it — the loop runs over all
units. -/
def synthetic_control_placebos (rows : List SCRow)
    (intervention_time treated_unit : String) : List PlaceboRecord :=
  let units := sortedUnique (rows.map SCRow.unit)
  units.map fun u =>
    { placebo_treated := u
      outcome :=
        match synthetic_control rows u intervention_time none with
        | some r => some (r.pre_mse, r.post_gap_mean)
        | none => none }

/-! ## Donor-pool greedy search (`models/synth_opt.py`, lines 69–93)

The loop below is the greedy forward selection verbatim, parameterized by
the per-trial fit evaluation `rmse : List String → ℚ` — in the source,
`fun donors => (synthetic_control ... donor_units:=donors).pre_rmse`.
Keeping the fit abstract lets the selection logic be settled for every
possible RMSE landscape (the fit itself ends in an irrational square root,
which only enters this loop through order comparisons and the subtraction
in the stop test). -/

/-- The inner loop of one greedy step: the first candidate outside the
current selection whose trial RMSE is strictly smallest (`None` when every
candidate is already selected). -/
def bestCandidate (rmse : List String → ℚ) (candidates selected : List String) :
    Option (String × ℚ) :=
  candidates.foldl
    (fun acc u =>
      if u ∈ selected then acc
      else
        let r := rmse (selected ++ [u])
        match acc with
        | none => some (u, r)
        | some (bu, br) => if r < br then some (u, r) else some (bu, br))
    none

/-- The greedy forward-selection loop: at each step append the best
candidate, fold it into the running best RMSE (`None` is the initial
`float("inf")`), and stop early when `step >= 2` and the step RMSE is within
`1e-6` of the running best — which the source evaluates after the running
best has already been updated. -/
def greedyLoop (rmse : List String → ℚ) (candidates : List String) :
    ℕ → ℕ → List String → Option ℚ → List String × Option ℚ
  | 0, _, selected, best => (selected, best)
  | fuel + 1, step, selected, best =>
    match bestCandidate rmse candidates selected with
    | none => (selected, best)
    | some (u, r) =>
      let selected1 := selected ++ [u]
      let best1 := match best with
        | none => some r
        | some b => if r < b then some r else some b
      if 2 ≤ step ∧ |r - best1.getD 0| < 1 / 1000000 then (selected1, best1)
      else greedyLoop rmse candidates fuel (step + 1) selected1 best1

/-- The greedy selection of `donor_pool_search`: at most
`min(max_donors, len(candidates))` steps from the empty selection. -/
def donorSearchSelect (rmse : List String → ℚ) (candidates : List String)
    (max_donors : ℕ) : List String × Option ℚ :=
  greedyLoop rmse candidates (min max_donors candidates.length) 0 [] none

/-! ## Concrete instances used by witnesses and counterexamples -/

/-- A concrete stand-in for the library p-value function in closed
statements (any `PFun` works in every theorem that takes one). -/
def pfun0 : PFun := fun _ _ => 0

/-- A concrete stand-in for the χ² distribution function in closed
statements. -/
def cdf0 : ℝ → ℝ → ℝ := fun _ _ => 0

/-- A two-unit, two-period panel on which the projected-gradient weight fit
collapses to the zero vector: the treated pre-period value −100 sits far
below the donor's, so the first gradient step drives the single weight
negative, clipping makes it 0, the clipped sum is 0, and renormalization is
skipped forever after. -/
def scRowsCollapse : List SCRow :=
  [⟨"T", "1", -100⟩, ⟨"D", "1", 1⟩, ⟨"T", "2", 0⟩, ⟨"D", "2", 1⟩]

/-- A flat two-unit panel (every outcome 1) for the placebo sweep. -/
def scRowsFlat : List SCRow :=
  [⟨"A", "1", 1⟩, ⟨"B", "1", 1⟩, ⟨"A", "2", 1⟩, ⟨"B", "2", 1⟩]

/-- A two-unit panel observed only at period "5" (no pre-period for any
intervention time up to "5"). -/
def scRowsNoPre : List SCRow := [⟨"T", "5", 2⟩, ⟨"D", "5", 1⟩]

/-- Two ITS observations; with intervention time "2020-02" the intervention
is at (not strictly after) the last period. -/
def itsRowsTwo : List ITSRow := [⟨"2020-01", 1, []⟩, ⟨"2020-02", 2, []⟩]

/-- One ITS observation after the intervention time "2019": the pre-period
is empty. -/
def itsRowsAllPost : List ITSRow := [⟨"2020", 5, []⟩]

/-- Twenty RDD observations at the cutoff. -/
def rddRows20 : List RDDRow := List.replicate 20 ⟨0, 0, []⟩

/-- An RMSE landscape for the greedy donor search on which every step
strictly improves the best RMSE by 1 (far above the 1e-6 tolerance): the
trial RMSE depends only on how many donors are in the trial set. -/
def rmseDemo (ds : List String) : ℚ :=
  match ds.length with
  | 1 => 99
  | 2 => 98
  | 3 => 97
  | 4 => 96
  | 5 => 95
  | _ => 1000

/-- Five candidate donors for the greedy-search run. -/
def candsDemo : List String := ["d1", "d2", "d3", "d4", "d5"]

/-! ## Helper lemmas -/

theorem lexLeB_total (as bs : List Char) : lexLeB as bs = true ∨ lexLeB bs as = true := by
  induction as generalizing bs with
  | nil => exact Or.inl rfl
  | cons a as ih =>
    cases bs with
    | nil => exact Or.inr rfl
    | cons b bs =>
      by_cases hab : a.toNat < b.toNat
      · exact Or.inl (by simp [lexLeB, hab])
      · by_cases hba : b.toNat < a.toNat
        · exact Or.inr (by simp [lexLeB, hba])
        · rcases ih bs with h | h
          · exact Or.inl (by simpa [lexLeB, hab, hba] using h)
          · exact Or.inr (by simpa [lexLeB, hab, hba] using h)

theorem lexLeB_trans (as bs cs : List Char) (h1 : lexLeB as bs = true)
    (h2 : lexLeB bs cs = true) : lexLeB as cs = true := by
  induction as generalizing bs cs with
  | nil => rfl
  | cons a as ih =>
    cases bs with
    | nil => simp [lexLeB] at h1
    | cons b bs =>
      cases cs with
      | nil => simp [lexLeB] at h2
      | cons c cs =>
        rcases Nat.lt_trichotomy a.toNat b.toNat with hab | hab | hab
        · -- a < b: from h2, b ≤ c in the head, hence a < c
          rcases Nat.lt_trichotomy b.toNat c.toNat with hbc | hbc | hbc
          · simp [lexLeB, show a.toNat < c.toNat by omega]
          · simp [lexLeB, show a.toNat < c.toNat by omega]
          · simp [lexLeB, show ¬ b.toNat < c.toNat by omega, hbc] at h2
        · -- a = b: h1 recurses on the tails
          simp only [lexLeB, show ¬ a.toNat < b.toNat by omega,
            show ¬ b.toNat < a.toNat by omega, if_false] at h1
          rcases Nat.lt_trichotomy b.toNat c.toNat with hbc | hbc | hbc
          · simp [lexLeB, show a.toNat < c.toNat by omega]
          · simp only [lexLeB, show ¬ b.toNat < c.toNat by omega,
              show ¬ c.toNat < b.toNat by omega, if_false] at h2
            simp only [lexLeB, show ¬ a.toNat < c.toNat by omega,
              show ¬ c.toNat < a.toNat by omega, if_false]
            exact ih bs cs h1 h2
          · simp [lexLeB, show ¬ b.toNat < c.toNat by omega, hbc] at h2
        · -- b < a: h1 is false
          simp [lexLeB, show ¬ a.toNat < b.toNat by omega, hab] at h1

theorem lexLeB_antisymm (as bs : List Char) (h1 : lexLeB as bs = true)
    (h2 : lexLeB bs as = true) : as = bs := by
  induction as generalizing bs with
  | nil =>
    cases bs with
    | nil => rfl
    | cons b bs => simp [lexLeB] at h2
  | cons a as ih =>
    cases bs with
    | nil => simp [lexLeB] at h1
    | cons b bs =>
      by_cases hab : a.toNat < b.toNat
      · have hba : ¬ b.toNat < a.toNat := by omega
        simp [lexLeB, hab, hba] at h2
      · by_cases hba : b.toNat < a.toNat
        · simp [lexLeB, hab, hba] at h1
        · have hv : a.toNat = b.toNat := by omega
          have hc : a = b := Char.eq_of_val_eq (UInt32.ext hv)
          subst hc
          simp only [lexLeB, hab, hba, if_false] at h1 h2
          exact congrArg (a :: ·) (ih bs h1 h2)

instance : IsTotal String strLe :=
  ⟨fun a b => lexLeB_total a.data b.data⟩

instance : IsTrans String strLe :=
  ⟨fun a b c h1 h2 => lexLeB_trans a.data b.data c.data h1 h2⟩

instance : IsAntisymm String strLe :=
  ⟨fun a b h1 h2 => by
    have hd := lexLeB_antisymm a.data b.data h1 h2
    cases a; cases b; exact congrArg String.mk hd⟩

theorem sortedUnique_perm_dedup (l : List String) : (sortedUnique l).Perm l.dedup :=
  List.perm_insertionSort strLe l.dedup

theorem sortedUnique_congr_of_perm {l₁ l₂ : List String} (h : l₁.Perm l₂) :
    sortedUnique l₁ = sortedUnique l₂ := by
  refine List.eq_of_perm_of_sorted ?_ (List.sorted_insertionSort strLe l₁.dedup)
    (List.sorted_insertionSort strLe l₂.dedup)
  exact (sortedUnique_perm_dedup l₁).trans (h.dedup.trans (sortedUnique_perm_dedup l₂).symm)

theorem mem_sortedUnique {l : List String} {x : String} :
    x ∈ sortedUnique l ↔ x ∈ l := by
  rw [(sortedUnique_perm_dedup l).mem_iff, List.mem_dedup]

theorem sum_map_div {K : Type} [DivisionRing K] (l : List K) (s : K) :
    (l.map (fun x => x / s)).sum = l.sum / s := by
  induction l with
  | nil => simp
  | cons a l ih => simp [ih, add_div]

theorem sum_eq_zero_of_nonneg {l : List ℚ} (h0 : ∀ x ∈ l, 0 ≤ x)
    (hs : l.sum = 0) : ∀ x ∈ l, x = 0 := by
  induction l with
  | nil => simp
  | cons a l ih =>
    have ha : 0 ≤ a := h0 a (by simp)
    have hl : 0 ≤ l.sum := List.sum_nonneg (fun x hx => h0 x (by simp [hx]))
    have hsum : a + l.sum = 0 := by simpa using hs
    have ha0 : a = 0 := by linarith
    have hl0 : l.sum = 0 := by linarith
    intro x hx
    rcases List.mem_cons.mp hx with hx | hx
    · simpa [hx] using ha0
    · exact ih (fun y hy => h0 y (by simp [hy])) hl0 x hx

theorem gram_congr_of_perm {m : ℕ} {o₁ o₂ : List Obs} (h : o₁.Perm o₂) :
    gram m o₁ = gram m o₂ := by
  unfold gram
  refine List.map_congr_left fun i _ => List.map_congr_left fun j _ => ?_
  exact (h.map _).sum_eq

theorem moment_congr_of_perm {m : ℕ} {o₁ o₂ : List Obs} (h : o₁.Perm o₂) :
    moment m o₁ = moment m o₂ := by
  unfold moment
  refine List.map_congr_left fun i _ => ?_
  exact (h.map _).sum_eq

theorem olsParams_congr_of_perm {m : ℕ} {o₁ o₂ : List Obs} (h : o₁.Perm o₂) :
    olsParams m o₁ = olsParams m o₂ := by
  unfold olsParams
  rw [gram_congr_of_perm h, moment_congr_of_perm h]

theorem scDefaultDonors_nodup (rows : List SCRow) (tu : String) :
    (scDefaultDonors rows tu).Nodup := by
  unfold scDefaultDonors
  exact ((List.perm_insertionSort strLe _).nodup_iff).mpr
    ((List.nodup_dedup _).filter _)

theorem ne_treated_of_mem_scDefaultDonors {rows : List SCRow} {tu u : String}
    (h : u ∈ scDefaultDonors rows tu) : u ≠ tu := by
  unfold scDefaultDonors at h
  rw [(List.perm_insertionSort strLe _).mem_iff, List.mem_filter] at h
  simpa using h.2

theorem dictInsert_mem {d : List (String × ℚ)} {k : String} {v : ℚ} :
    ∀ q ∈ dictInsert d k v, q ∈ d ∨ q = (k, v) := by
  intro q hq
  unfold dictInsert at hq
  split at hq
  · rcases List.mem_map.mp hq with ⟨p, hp, rfl⟩
    split
    · exact Or.inr rfl
    · exact Or.inl hp
  · rcases List.mem_append.mp hq with h | h
    · exact Or.inl h
    · exact Or.inr (by simpa using h)

theorem pyDict_subset (ps : List (String × ℚ)) : ∀ q ∈ pyDict ps, q ∈ ps := by
  suffices h : ∀ l acc : List (String × ℚ), (∀ q ∈ acc, q ∈ ps) → (∀ p ∈ l, p ∈ ps) →
      ∀ q ∈ l.foldl (fun d p => dictInsert d p.1 p.2) acc, q ∈ ps by
    exact h ps [] (by simp) fun p hp => hp
  intro l
  induction l with
  | nil =>
    intro acc hacc _ q hq
    exact hacc q hq
  | cons p l ih =>
    intro acc hacc hl q hq
    simp only [List.foldl_cons] at hq
    refine ih (dictInsert acc p.1 p.2) ?_ (fun r hr => hl r (by simp [hr])) q hq
    intro r hr
    rcases dictInsert_mem r hr with h | h
    · exact hacc r h
    · subst h
      exact hl p (by simp)

theorem foldl_dictInsert_fresh (l : List (String × ℚ)) :
    ∀ d : List (String × ℚ), (∀ p ∈ l, ∀ q ∈ d, q.1 ≠ p.1) →
    (l.map Prod.fst).Nodup →
    l.foldl (fun d p => dictInsert d p.1 p.2) d = d ++ l := by
  induction l with
  | nil => simp
  | cons p l ih =>
    intro d hfresh hnd
    simp only [List.map_cons, List.nodup_cons] at hnd
    have hnot : ¬ (d.any fun q => q.1 == p.1) = true := by
      rw [List.any_eq_true]
      rintro ⟨q, hq, hqe⟩
      exact hfresh p (by simp) q hq (by simpa using hqe)
    have hins : dictInsert d p.1 p.2 = d ++ [(p.1, p.2)] := by
      unfold dictInsert
      rw [if_neg hnot]
    have hfresh2 : ∀ r ∈ l, ∀ q ∈ d ++ [(p.1, p.2)], q.1 ≠ r.1 := by
      intro r hr q hq
      rcases List.mem_append.mp hq with h | h
      · exact hfresh r (by simp [hr]) q h
      · have hqe : q = (p.1, p.2) := by simpa using h
        subst hqe
        intro he
        exact hnd.1 (he ▸ List.mem_map.mpr ⟨r, hr, rfl⟩)
    simp only [List.foldl_cons]
    rw [hins, ih (d ++ [(p.1, p.2)]) hfresh2 hnd.2, List.append_assoc]
    rfl

theorem pyDict_eq_self (ps : List (String × ℚ)) (hnd : (ps.map Prod.fst).Nodup) :
    pyDict ps = ps := by
  unfold pyDict
  rw [foldl_dictInsert_fresh ps [] (by simp) hnd]
  simp

/-! ## Claim C5: the RDD minimum-observation guard -/

/-- C5: `regression_discontinuity` raises if and only if fewer than 20
observations have absolute centered running value at most the bandwidth;
with at least 20 such observations it returns a result carrying the
discontinuity coefficient and p-value. -/
theorem rdd_error_iff_bandwidth_count (pfun : PFun) (nx : ℕ) (rows : List RDDRow)
    (cutoff bandwidth : ℚ) :
    ((∃ e, regression_discontinuity pfun nx rows cutoff bandwidth = Except.error e) ↔
      (rows.filter fun r => |r.running - cutoff| ≤ bandwidth).length < 20) ∧
    (20 ≤ (rows.filter fun r => |r.running - cutoff| ≤ bandwidth).length →
      ∃ res, regression_discontinuity pfun nx rows cutoff bandwidth = Except.ok res) := by
  by_cases h : (rows.filter fun r => |r.running - cutoff| ≤ bandwidth).length < 20
  · refine ⟨⟨fun _ => h, fun _ => ?_⟩, fun h20 => absurd h (by omega)⟩
    exact ⟨_, by unfold regression_discontinuity; rw [if_pos h]⟩
  · refine ⟨⟨fun he => ?_, fun hlt => absurd hlt h⟩, fun _ => ?_⟩
    · rcases he with ⟨e, he⟩
      unfold regression_discontinuity at he
      rw [if_neg h] at he
      exact Except.noConfusion he
    · exact ⟨_, by unfold regression_discontinuity; rw [if_neg h]⟩

/-- Witness for C5: on twenty observations at the cutoff with bandwidth 1,
the fit goes through. -/
theorem rdd_error_iff_bandwidth_count_witness :
    ∃ res, regression_discontinuity pfun0 0 rddRows20 0 1 = Except.ok res := by
  refine (rdd_error_iff_bandwidth_count pfun0 0 rddRows20 0 1).2 ?_
  have : (rddRows20.filter fun r => |r.running - 0| ≤ 1) = rddRows20 := by
    refine List.filter_eq_self.mpr fun a ha => ?_
    have hmem := List.eq_of_mem_replicate ha
    subst hmem
    norm_num
  rw [this]
  simp [rddRows20]

/-! ## Claim C4: the ITS no-post-period guard -/

/-- C4 (amended): `interrupted_time_series` raises if and only if the
intervention time is strictly after every observation's period —
equivalently, no observation's period is at or after the intervention time,
i.e. no post-period exists; when some observation's period is at or after
the intervention time it returns a result carrying the level-change and
slope-change coefficients with p-values. -/
theorem its_error_iff_no_post (pfun : PFun) (nx : ℕ) (rows : List ITSRow)
    (it : String) :
    ((∃ e, interrupted_time_series pfun nx rows it = Except.error e) ↔
      ∀ r ∈ rows, strLtB r.time it = true) ∧
    ((∃ r ∈ rows, strLeB it r.time = true) →
      ∃ res, interrupted_time_series pfun nx rows it = Except.ok res) := by
  have hany : (List.insertionSort itsRowLe rows).any (fun r => strLeB it r.time) = true ↔
      ∃ r ∈ rows, strLeB it r.time = true := by
    rw [List.any_eq_true]
    constructor
    · rintro ⟨r, hr, hp⟩
      exact ⟨r, (List.perm_insertionSort itsRowLe rows).mem_iff.mp hr, hp⟩
    · rintro ⟨r, hr, hp⟩
      exact ⟨r, (List.perm_insertionSort itsRowLe rows).mem_iff.mpr hr, hp⟩
  have hlt : (∀ r ∈ rows, strLtB r.time it = true) ↔
      ¬ ∃ r ∈ rows, strLeB it r.time = true := by
    simp only [strLtB, Bool.not_eq_true', not_exists, not_and]
    constructor
    · intro h r hr
      simpa using h r hr
    · intro h r hr
      simpa using h r hr
  by_cases h : (List.insertionSort itsRowLe rows).any (fun r => strLeB it r.time) = true
  · refine ⟨⟨fun he => ?_, fun hall => ?_⟩, fun _ => ?_⟩
    · rcases he with ⟨e, he⟩
      unfold interrupted_time_series at he
      rw [if_pos h] at he
      exact Except.noConfusion he
    · exact absurd (hany.mp h) (hlt.mp hall)
    · exact ⟨_, by unfold interrupted_time_series; rw [if_pos h]⟩
  · refine ⟨⟨fun _ => hlt.mpr fun hex => h (hany.mpr hex), fun _ => ?_⟩,
      fun hex => absurd (hany.mpr hex) h⟩
    exact ⟨_, by unfold interrupted_time_series; rw [if_neg h]⟩

/-- Witness for C4: with periods "2020-01", "2020-02" and intervention time
"2020-01" a post-period exists and the fit returns. -/
theorem its_error_iff_no_post_witness :
    ∃ res, interrupted_time_series pfun0 0 itsRowsTwo "2020-01" = Except.ok res := by
  refine (its_error_iff_no_post pfun0 0 itsRowsTwo "2020-01").2 ?_
  exact ⟨⟨"2020-01", 1, []⟩, by decide, by decide⟩

/-- Counterexample for C4 as stated: with periods "2020-01", "2020-02" and
intervention time "2020-02", the intervention time is at or after every
observation's period (the claim then demands an error), yet the code
returns a result — the last period itself forms a post-period. -/
theorem its_counterexample_boundary :
    (∀ r ∈ itsRowsTwo, strLeB r.time "2020-02" = true) ∧
    ∃ res, interrupted_time_series pfun0 0 itsRowsTwo "2020-02" = Except.ok res := by
  refine ⟨by decide, ⟨_, rfl⟩⟩

/-! ## Claim C6: the event-study key set -/

/-- C6: the omitted offset never appears as a key of the returned
coefficient and p-value mappings; both key lists are exactly the integers
of `[k_min, k_max]` without `omit_k`; and when `omit_k` lies outside
`[k_min, k_max]` nothing is omitted: the key list is all of
`range(k_min, k_max + 1)`. -/
theorem event_study_key_set (pfun : PFun) (rows : List ESRow) (x_cols : List String)
    (k_min k_max omit_k : ℤ) :
    ((event_study pfun rows x_cols k_min k_max omit_k).coef_by_k.map Prod.fst =
      esKs k_min k_max omit_k) ∧
    ((event_study pfun rows x_cols k_min k_max omit_k).p_by_k.map Prod.fst =
      esKs k_min k_max omit_k) ∧
    omit_k ∉ esKs k_min k_max omit_k ∧
    (∀ k : ℤ, k ∈ esKs k_min k_max omit_k ↔ k_min ≤ k ∧ k ≤ k_max ∧ k ≠ omit_k) ∧
    ((omit_k < k_min ∨ k_max < omit_k) →
      esKs k_min k_max omit_k =
        (List.range (k_max + 1 - k_min).toNat).map fun i : ℕ => k_min + (i : ℤ)) := by
  have hmem : ∀ k : ℤ, k ∈ esKs k_min k_max omit_k ↔
      k_min ≤ k ∧ k ≤ k_max ∧ k ≠ omit_k := by
    intro k
    unfold esKs
    rw [List.mem_filter]
    simp only [List.mem_map, List.mem_range, bne_iff_ne, ne_eq]
    constructor
    · rintro ⟨⟨i, hi, rfl⟩, hne⟩
      refine ⟨by omega, by omega, hne⟩
    · rintro ⟨h1, h2, hne⟩
      exact ⟨⟨(k - k_min).toNat, by omega, by omega⟩, hne⟩
  have hkeys : ∀ (f : ℕ → ℤ → ℚ),
      ((esKs k_min k_max omit_k).enum.map fun p => ((p.2 : ℤ), f p.1 p.2)).map Prod.fst =
        esKs k_min k_max omit_k := by
    intro f
    rw [List.map_map]
    have : (Prod.fst ∘ fun p : ℕ × ℤ => ((p.2 : ℤ), f p.1 p.2)) = Prod.snd := rfl
    rw [this, List.enum_map_snd]
  refine ⟨?_, ?_, ?_, hmem, ?_⟩
  · exact hkeys fun i k => (olsParams _ _).getD (2 + i) 0
  · exact hkeys fun i k => pfun _ (2 + i)
  · intro hk
    exact ((hmem omit_k).mp hk).2.2 rfl
  · intro hout
    unfold esKs
    refine List.filter_eq_self.mpr fun k hk => ?_
    rcases List.mem_map.mp hk with ⟨i, hi, rfl⟩
    rw [List.mem_range] at hi
    simp only [bne_iff_ne, ne_eq, decide_eq_true_eq]
    omega

/-- Witness for C6 at a concrete window: `[k_min, k_max] = [-1, 1]` with the
omitted offset −5 outside the window, so every offset of the window is a
key. -/
theorem event_study_key_set_witness :
    ((event_study pfun0 [] [] (-1) 1 (-5)).coef_by_k.map Prod.fst =
      esKs (-1) 1 (-5)) ∧
    esKs (-1) 1 (-5) =
      (List.range ((1 : ℤ) + 1 - (-1)).toNat).map (fun i : ℕ => (-1 : ℤ) + (i : ℤ)) := by
  exact ⟨(event_study_key_set pfun0 [] [] (-1) 1 (-5)).1,
    (event_study_key_set pfun0 [] [] (-1) 1 (-5)).2.2.2.2 (Or.inl (by decide))⟩

/-! ## Claim C3: the synthetic-control placebo sweep -/

/-- C3 (amended): the placebo sweep returns exactly one trial record per
distinct unit of the panel — including the supplied treated unit, which the
source accepts but never reads — each record obtained by re-running the
baseline synthetic-control fit with that unit as treated, and a failing
trial yields an error entry in its record rather than aborting the sweep
(the `none` outcome below). -/
theorem placebos_record_per_unit (rows : List SCRow) (it tu : String) :
    ((synthetic_control_placebos rows it tu).map PlaceboRecord.placebo_treated =
      sortedUnique (rows.map SCRow.unit)) ∧
    (∀ rec ∈ synthetic_control_placebos rows it tu,
      rec.outcome =
        match synthetic_control rows rec.placebo_treated it none with
        | some r => some (r.pre_mse, r.post_gap_mean)
        | none => none) := by
  constructor
  · unfold synthetic_control_placebos
    rw [List.map_map]
    exact List.map_id _
  · intro rec hrec
    unfold synthetic_control_placebos at hrec
    rcases List.mem_map.mp hrec with ⟨u, _, rfl⟩
    rfl

/-- Witness for C3 on the flat two-unit panel: the sweep's record keys are
the sorted distinct units. -/
theorem placebos_record_per_unit_witness :
    (synthetic_control_placebos scRowsFlat "2" "B").map PlaceboRecord.placebo_treated =
      ["A", "B"] :=
  ((placebos_record_per_unit scRowsFlat "2" "B").1).trans (by decide)

/-- Counterexample for C3 as stated: with treated unit "A" supplied, the
sweep still contains a record for "A" itself — not only one per unit other
than the treated unit. -/
theorem placebos_counterexample_includes_treated :
    (synthetic_control_placebos scRowsFlat "2" "A").map PlaceboRecord.placebo_treated =
      ["A", "B"] ∧
    "A" ∈ (synthetic_control_placebos scRowsFlat "2" "A").map
      PlaceboRecord.placebo_treated := by
  exact ⟨by decide, by decide⟩

/-! ## Claim C2: the donor-search early stop -/

/-- C2 (code-bug evidence): on an RMSE landscape where every greedy step
strictly improves the best pre-period RMSE by 1 (far above the 1e-6
tolerance), the greedy selection stops after its third step with 3 donors,
not the `min(max_donors, len(candidates)) = 5` the claim (and the source's
own "early stop if improvement is tiny" comment) prescribe: the stop test
compares the step RMSE against the running best after the latter has
already been updated, so it reads `|x − x| < 1e-6` on every improving step
once `step ≥ 2`. -/
theorem donor_search_early_stop_bug :
    (donorSearchSelect rmseDemo candsDemo 5).1 = ["d1", "d2", "d3"] ∧
    min 5 candsDemo.length = 5 := by
  constructor
  · have h1 : ¬ (99 : ℚ) < 99 := by norm_num
    have h2 : ¬ (98 : ℚ) < 98 := by norm_num
    have h3 : ¬ (97 : ℚ) < 97 := by norm_num
    have h4 : (98 : ℚ) < 99 := by norm_num
    have h5 : (97 : ℚ) < 98 := by norm_num
    have h6 : |(97 : ℚ) - 97| < 1 / 1000000 := by norm_num
    simp [donorSearchSelect, greedyLoop, bestCandidate, rmseDemo, candsDemo,
      h1, h2, h3, h4, h5, h6]
  · decide

/-! ## Synthetic-control weight invariants -/

theorem scProject_nonneg (w1 : List ℚ) : ∀ x ∈ scProject w1, 0 ≤ x := by
  intro x hx
  simp only [scProject] at hx
  by_cases h : 0 < (w1.map fun x => max 0 x).sum
  · rw [if_pos h] at hx
    rcases List.mem_map.mp hx with ⟨a, ha, rfl⟩
    rcases List.mem_map.mp ha with ⟨b, _, rfl⟩
    exact div_nonneg (le_max_left 0 b) h.le
  · rw [if_neg h] at hx
    rcases List.mem_map.mp hx with ⟨b, _, rfl⟩
    exact le_max_left 0 b

theorem scProject_sum (w1 : List ℚ) :
    (scProject w1).sum = 1 ∨ ∀ x ∈ scProject w1, x = 0 := by
  simp only [scProject]
  by_cases h : 0 < (w1.map fun x => max 0 x).sum
  · left
    rw [if_pos h, sum_map_div]
    exact div_self (ne_of_gt h)
  · right
    rw [if_neg h]
    intro x hx
    have hnn : ∀ a ∈ w1.map fun x => max 0 x, 0 ≤ a := by
      intro a ha
      rcases List.mem_map.mp ha with ⟨b, _, rfl⟩
      exact le_max_left 0 b
    have h0 : (w1.map fun x => max 0 x).sum = 0 :=
      le_antisymm (not_lt.mp h) (List.sum_nonneg hnn)
    exact sum_eq_zero_of_nonneg hnn h0 x hx

theorem scProject_length (w1 : List ℚ) : (scProject w1).length = w1.length := by
  simp only [scProject]
  split <;> simp

theorem scStep_length (X : List (List ℚ)) (Y w : List ℚ) :
    (scStep X Y w).length = min w.length X.length := by
  unfold scStep
  rw [scProject_length, List.length_zipWith]
  congr 1
  simp [scGrad]

theorem scIter_props (X : List (List ℚ)) (Y : List ℚ) (n : ℕ) (hn : n ≠ 0)
    (hX : X.length = n) (k : ℕ) :
    (∀ x ∈ Nat.iterate (scStep X Y) k (List.replicate n (1 / (n : ℚ))), 0 ≤ x) ∧
    ((Nat.iterate (scStep X Y) k (List.replicate n (1 / (n : ℚ)))).sum = 1 ∨
      ∀ x ∈ Nat.iterate (scStep X Y) k (List.replicate n (1 / (n : ℚ))), x = 0) ∧
    (Nat.iterate (scStep X Y) k (List.replicate n (1 / (n : ℚ)))).length = n := by
  induction k with
  | zero =>
    refine ⟨?_, Or.inl ?_, by simp⟩
    · intro x hx
      rw [Function.iterate_zero_apply] at hx
      rw [List.eq_of_mem_replicate hx]
      positivity
    · rw [Function.iterate_zero_apply, List.sum_replicate, nsmul_eq_mul, mul_one_div,
        div_self (Nat.cast_ne_zero.mpr hn)]
  | succ k ih =>
    rw [Function.iterate_succ_apply']
    refine ⟨scProject_nonneg _, scProject_sum _, ?_⟩
    rw [scStep_length, ih.2.2, hX, min_self]

theorem scFitWeights_props (X : List (List ℚ)) (Y : List ℚ) (n : ℕ) (hn : n ≠ 0)
    (hX : X.length = n) :
    (∀ x ∈ scFitWeights X Y n, 0 ≤ x) ∧
    ((scFitWeights X Y n).sum = 1 ∨ ∀ x ∈ scFitWeights X Y n, x = 0) ∧
    (scFitWeights X Y n).length = n :=
  scIter_props X Y n hn hX 4000

/-! ## Claim C1: the synthetic-control weight simplex -/

/-- C1 (amended): every synthetic-control call with a non-empty donor list
returns a result whose weight-mapping values are all non-negative.  When the
effective donor list has no repeated entries — in particular whenever it is
the default donor list, used both for `donor_units = None` and for an
explicitly supplied empty list (falsy in Python's `or`) — the values sum to
exactly 1 unless the projected-gradient iteration has collapsed every weight
to 0 (the clipped sum is then 0 and renormalization is skipped, so they sum
to 0).  When the default donor list is used the treated unit is not a key of
the mapping.  (A supplied non-empty donor list is otherwise used as-is: it
may key the treated unit, and a repeated donor collapses in the dict — see
the counterexample.) -/
theorem synthetic_control_weights_simplex (rows : List SCRow) (tu it : String)
    (dus : Option (List String)) (hd : scDonors rows tu dus ≠ []) :
    ∃ res, synthetic_control rows tu it dus = some res ∧
      (∀ p ∈ res.weights, 0 ≤ p.2) ∧
      ((scDonors rows tu dus).Nodup →
        ((res.weights.map Prod.snd).sum = 1 ∨ ∀ p ∈ res.weights, p.2 = 0)) ∧
      ((dus = none ∨ dus = some []) → ∀ p ∈ res.weights, p.1 ≠ tu) := by
  have hne : ¬ (scDonors rows tu dus).isEmpty = true := by
    simpa [List.isEmpty_iff] using hd
  have hnlen : (scDonors rows tu dus).length ≠ 0 :=
    fun h => hd (List.length_eq_zero.mp h)
  have hXlen : (scX rows (scDonors rows tu dus) (scPreTimes rows it)).length =
      (scDonors rows tu dus).length := by
    simp [scX]
  obtain ⟨hpos, hsum, hwlen⟩ :=
    scFitWeights_props (scX rows (scDonors rows tu dus) (scPreTimes rows it))
      (seriesVals rows tu (scPreTimes rows it)) (scDonors rows tu dus).length
      hnlen hXlen
  have hweights : (scResult rows tu it (scDonors rows tu dus)).weights =
      pyDict ((scDonors rows tu dus).zip
        (scFitWeights (scX rows (scDonors rows tu dus) (scPreTimes rows it))
          (seriesVals rows tu (scPreTimes rows it)) (scDonors rows tu dus).length)) := rfl
  refine ⟨scResult rows tu it (scDonors rows tu dus), ?_, ?_, ?_, ?_⟩
  · unfold synthetic_control
    rw [if_neg hne]
  · intro p hp
    rw [hweights] at hp
    have hz := pyDict_subset _ p hp
    exact hpos p.2 (List.of_mem_zip (by simpa using hz)).2
  · intro hnd
    have hkeys : (((scDonors rows tu dus).zip
        (scFitWeights (scX rows (scDonors rows tu dus) (scPreTimes rows it))
          (seriesVals rows tu (scPreTimes rows it))
          (scDonors rows tu dus).length)).map Prod.fst) = scDonors rows tu dus :=
      List.map_fst_zip _ _ (le_of_eq hwlen.symm)
    have hnd2 : (((scDonors rows tu dus).zip
        (scFitWeights (scX rows (scDonors rows tu dus) (scPreTimes rows it))
          (seriesVals rows tu (scPreTimes rows it))
          (scDonors rows tu dus).length)).map Prod.fst).Nodup := by
      rw [hkeys]
      exact hnd
    rw [hweights, pyDict_eq_self _ hnd2, List.map_snd_zip _ _ (le_of_eq hwlen)]
    rcases hsum with h | h
    · exact Or.inl h
    · refine Or.inr fun p hp => ?_
      exact h p.2 (List.of_mem_zip (by simpa using hp)).2
  · intro hdus p hp
    rw [hweights] at hp
    have hz := pyDict_subset _ p hp
    have hmem : p.1 ∈ scDonors rows tu dus := (List.of_mem_zip (by simpa using hz)).1
    have hdflt : scDonors rows tu dus = scDefaultDonors rows tu := by
      rcases hdus with rfl | rfl <;> rfl
    rw [hdflt] at hmem
    exact ne_treated_of_mem_scDefaultDonors hmem

/-- Witness for C1 on a two-unit panel: the default donor list is the
non-treated unit alone (duplicate-free), and the fit returns with simplex
(or collapsed) weights not keyed by the treated unit. -/
theorem synthetic_control_weights_simplex_witness :
    ∃ res, synthetic_control scRowsFlat "A" "2" none = some res ∧
      (∀ p ∈ res.weights, 0 ≤ p.2) ∧
      ((scDonors scRowsFlat "A" none).Nodup →
        ((res.weights.map Prod.snd).sum = 1 ∨ ∀ p ∈ res.weights, p.2 = 0)) ∧
      ((none = (none : Option (List String)) ∨ (none : Option (List String)) = some []) →
        ∀ p ∈ res.weights, p.1 ≠ "A") :=
  synthetic_control_weights_simplex scRowsFlat "A" "2" none (by decide)

/-- Counterexample for C1 as stated.  First part: on `scRowsCollapse` (with
the default donor list `["D"]`) the projected-gradient iteration collapses
the weight vector to `[0]`, so the returned weights sum to 0 — not to 1
within the 1e-6 tolerance.  Second part: when the caller supplies a donor
list containing the treated unit, the treated unit is a key of the returned
weight mapping.  Third part: a repeated donor (`["B", "B"]` on a flat panel)
collapses in the weights dict — the fitted vector is `[1/2, 1/2]` but the
mapping is `{"B": 1/2}`, whose values sum to 1/2. -/
theorem synthetic_control_counterexample :
    ((∃ res, synthetic_control scRowsCollapse "T" "2" none = some res ∧
      (res.weights.map Prod.snd).sum = 0 ∧
      ¬ |(res.weights.map Prod.snd).sum - 1| ≤ 1 / 1000000) ∧
    (∃ res, synthetic_control scRowsCollapse "T" "2" (some ["T", "D"]) = some res ∧
      "T" ∈ res.weights.map Prod.fst)) ∧
    (∃ res, synthetic_control scRowsFlat "A" "2" (some ["B", "B"]) = some res ∧
      (res.weights.map Prod.snd).sum = 1 / 2 ∧
      ¬ |(res.weights.map Prod.snd).sum - 1| ≤ 1 / 1000000) := by
  refine ⟨⟨?_, ?_⟩, ?_⟩
  · have hstep1 : scStep [[1]] [-100] [1] = [0] := by
      have hr : (List.range 1) = [0] := rfl
      simp only [scStep, scGrad, scProject, dot, hr, List.map_cons, List.map_nil,
        List.zipWith_cons_cons, List.zipWith_nil_right, List.zipWith_nil_left,
        List.sum_cons, List.sum_nil, List.getElem?_cons_zero, Option.getD_some,
        List.length_cons, List.length_nil]
      norm_num
    have hstep0 : scStep [[1]] [-100] [0] = [0] := by
      have hr : (List.range 1) = [0] := rfl
      simp only [scStep, scGrad, scProject, dot, hr, List.map_cons, List.map_nil,
        List.zipWith_cons_cons, List.zipWith_nil_right, List.zipWith_nil_left,
        List.sum_cons, List.sum_nil, List.getElem?_cons_zero, Option.getD_some,
        List.length_cons, List.length_nil]
      norm_num
    have hfit : scFitWeights [[1]] [-100] 1 = [0] := by
      unfold scFitWeights
      have hone : List.replicate 1 (1 / ((1 : ℕ) : ℚ)) = [1] := by norm_num
      rw [hone, show (4000 : ℕ) = 3999 + 1 from rfl, Function.iterate_succ_apply,
        hstep1, Function.iterate_fixed hstep0]
    have hw : (scResult scRowsCollapse "T" "2" ["D"]).weights = [("D", 0)] := by
      simp only [scResult]
      rw [show scPreTimes scRowsCollapse "2" = ["1"] from by decide,
        show scX scRowsCollapse ["D"] ["1"] = [[1]] from by decide,
        show seriesVals scRowsCollapse "T" ["1"] = [-100] from by decide,
        show (["D"] : List String).length = 1 from rfl, hfit]
      rfl
    refine ⟨scResult scRowsCollapse "T" "2" ["D"], ?_, ?_, ?_⟩
    · unfold synthetic_control
      rw [show scDonors scRowsCollapse "T" none = ["D"] from by decide]
      rfl
    · rw [hw]
      simp
    · rw [hw]
      simp only [List.map_cons, List.map_nil, List.sum_cons, List.sum_nil]
      norm_num
  · have hXlen : (scX scRowsCollapse ["T", "D"] (scPreTimes scRowsCollapse "2")).length
        = (["T", "D"] : List String).length := by
      simp [scX]
    have hwlen := (scFitWeights_props
      (scX scRowsCollapse ["T", "D"] (scPreTimes scRowsCollapse "2"))
      (seriesVals scRowsCollapse "T" (scPreTimes scRowsCollapse "2"))
      (["T", "D"] : List String).length (by norm_num) hXlen).2.2
    have hw2 : (scResult scRowsCollapse "T" "2" ["T", "D"]).weights =
        pyDict (["T", "D"].zip
          (scFitWeights (scX scRowsCollapse ["T", "D"] (scPreTimes scRowsCollapse "2"))
            (seriesVals scRowsCollapse "T" (scPreTimes scRowsCollapse "2"))
            (["T", "D"] : List String).length)) := by
      simp only [scResult]
    have hkeys : ((["T", "D"].zip
        (scFitWeights (scX scRowsCollapse ["T", "D"] (scPreTimes scRowsCollapse "2"))
          (seriesVals scRowsCollapse "T" (scPreTimes scRowsCollapse "2"))
          (["T", "D"] : List String).length)).map Prod.fst) = ["T", "D"] :=
      List.map_fst_zip _ _ (le_of_eq hwlen.symm)
    have hnd2 : ((["T", "D"].zip
        (scFitWeights (scX scRowsCollapse ["T", "D"] (scPreTimes scRowsCollapse "2"))
          (seriesVals scRowsCollapse "T" (scPreTimes scRowsCollapse "2"))
          (["T", "D"] : List String).length)).map Prod.fst).Nodup := by
      rw [hkeys]
      decide
    refine ⟨scResult scRowsCollapse "T" "2" ["T", "D"], rfl, ?_⟩
    rw [hw2, pyDict_eq_self _ hnd2, hkeys]
    decide
  · have hstepU : scStep [[1], [1]] [1] [1 / 2, 1 / 2] = [1 / 2, 1 / 2] := by
      have hr : (List.range 1) = [0] := rfl
      simp only [scStep, scGrad, scProject, dot, hr, List.map_cons, List.map_nil,
        List.zipWith_cons_cons, List.zipWith_nil_right, List.zipWith_nil_left,
        List.sum_cons, List.sum_nil, List.getElem?_cons_zero, Option.getD_some,
        List.length_cons, List.length_nil]
      norm_num
    have hone2 : List.replicate 2 (1 / ((2 : ℕ) : ℚ)) = [1 / 2, 1 / 2] := by
      norm_num [List.replicate]
    have hfitU : scFitWeights [[1], [1]] [1] 2 = [1 / 2, 1 / 2] := by
      unfold scFitWeights
      rw [hone2]
      exact Function.iterate_fixed hstepU 4000
    have hw3 : (scResult scRowsFlat "A" "2" ["B", "B"]).weights = [("B", 1 / 2)] := by
      simp only [scResult]
      rw [show scPreTimes scRowsFlat "2" = ["1"] from by decide,
        show scX scRowsFlat ["B", "B"] ["1"] = [[1], [1]] from by decide,
        show seriesVals scRowsFlat "A" ["1"] = [1] from by decide,
        show (["B", "B"] : List String).length = 2 from rfl, hfitU]
      rfl
    refine ⟨scResult scRowsFlat "A" "2" ["B", "B"], rfl, ?_, ?_⟩
    · rw [hw3]
      simp
    · rw [hw3]
      simp only [List.map_cons, List.map_nil, List.sum_cons, List.sum_nil]
      norm_num
      rw [abs_of_nonneg (by norm_num : (0 : ℚ) ≤ 1 / 2)]
      norm_num

/-! ## Claim C10: synthetic control with an empty pre-period -/

theorem seriesVals_nil (rows : List SCRow) (u : String) : seriesVals rows u [] = [] := rfl

theorem zip_replicate_self {α β : Type} (l : List α) (b : β) :
    l.zip (List.replicate l.length b) = l.map fun a => (a, b) := by
  induction l with
  | nil => rfl
  | cons a l ih => simp only [List.length_cons, List.replicate_succ, List.zip_cons_cons,
      List.map_cons, ih]

theorem scGrad_empty_pre (X : List (List ℚ)) (w : List ℚ) :
    scGrad X [] w = List.replicate X.length 0 := by
  unfold scGrad
  simp only [List.length_nil, List.range_zero, List.map_nil, List.zipWith_nil_left]
  rw [List.map_congr_left (g := Function.const _ (0 : ℚ)) fun c _ => by
    simp [dot, Function.const]]
  exact List.map_const _ _

theorem scProject_replicate_uniform (n : ℕ) (hn : n ≠ 0) :
    scProject (List.replicate n (1 / (n : ℚ))) = List.replicate n (1 / (n : ℚ)) := by
  simp only [scProject]
  rw [List.map_replicate, max_eq_right (by positivity : (0 : ℚ) ≤ 1 / (n : ℚ)),
    List.sum_replicate, nsmul_eq_mul, mul_one_div, div_self (Nat.cast_ne_zero.mpr hn),
    if_pos one_pos, List.map_replicate, div_one]

theorem scStep_empty_pre (X : List (List ℚ)) (n : ℕ) (hn : n ≠ 0) (hX : X.length = n) :
    scStep X [] (List.replicate n (1 / (n : ℚ))) = List.replicate n (1 / (n : ℚ)) := by
  unfold scStep
  rw [scGrad_empty_pre, hX, List.zipWith_replicate, min_self,
    show (1 / (n : ℚ) - 1 / 20 * 0) = 1 / (n : ℚ) by ring]
  exact scProject_replicate_uniform n hn

theorem scFitWeights_empty_pre (X : List (List ℚ)) (n : ℕ) (hn : n ≠ 0)
    (hX : X.length = n) :
    scFitWeights X [] n = List.replicate n (1 / (n : ℚ)) :=
  Function.iterate_fixed (scStep_empty_pre X n hn hX) 4000

/-- C10 (amended): on a panel where every observed period is at or after the
intervention time (so the pre-period is empty) and the default donor list is
non-empty, `synthetic_control` does not raise: the gradient of the empty
pre-period is zero, so it returns the uniform weight `1/n` on each of the
`n` donors, a `NaN` (`none`) pre-period RMSE, and the post-period gap
computed from those uniform weights.  The ITS estimator does not raise in
the corresponding no-pre-period situation either — it raises only when no
post-period exists — so the contrast drawn by the claim fails. -/
theorem synthetic_control_empty_pre_period (rows : List SCRow) (tu it : String)
    (hd : scDonors rows tu none ≠ [])
    (hpost : ∀ r ∈ rows, strLeB it r.time = true) :
    (∃ res, synthetic_control rows tu it none = some res ∧
      res.weights = (scDonors rows tu none).map
        (fun u => (u, 1 / ((scDonors rows tu none).length : ℚ))) ∧
      res.pre_mse = none ∧
      res.post_gap_mean = scPostGap rows tu it (scDonors rows tu none)
        (List.replicate (scDonors rows tu none).length
          (1 / ((scDonors rows tu none).length : ℚ)))) ∧
    (∀ (pf : PFun) (nx : ℕ) (trows : List ITSRow), trows ≠ [] →
      (∀ r ∈ trows, strLeB it r.time = true) →
      ∃ res, interrupted_time_series pf nx trows it = Except.ok res) := by
  have hne : ¬ (scDonors rows tu none).isEmpty = true := by
    simpa [List.isEmpty_iff] using hd
  have hnlen : (scDonors rows tu none).length ≠ 0 :=
    fun h => hd (List.length_eq_zero.mp h)
  have hpre : scPreTimes rows it = [] := by
    unfold scPreTimes scAllTimes
    refine List.filter_eq_nil_iff.mpr fun t ht => ?_
    rcases List.mem_map.mp (mem_sortedUnique.mp ht) with ⟨r, hr, rfl⟩
    simp [strLtB, hpost r hr]
  have hXlen : (scX rows (scDonors rows tu none) []).length =
      (scDonors rows tu none).length := by
    simp [scX]
  have hfit := scFitWeights_empty_pre (scX rows (scDonors rows tu none) [])
    (scDonors rows tu none).length hnlen hXlen
  constructor
  · refine ⟨scResult rows tu it (scDonors rows tu none), ?_, ?_, ?_, ?_⟩
    · unfold synthetic_control
      rw [if_neg hne]
    · simp only [scResult]
      rw [hpre, seriesVals_nil, hfit, zip_replicate_self]
      refine pyDict_eq_self _ ?_
      rw [List.map_map,
        show (Prod.fst ∘ fun u : String =>
          (u, (1 : ℚ) / ((scDonors rows tu none).length : ℚ))) = id from rfl,
        List.map_id]
      exact scDefaultDonors_nodup rows tu
    · simp only [scResult]
      rw [hpre, seriesVals_nil]
      rfl
    · simp only [scResult]
      rw [hpre, seriesVals_nil, hfit]
  · intro pf nx trows hne2 hall
    have hany : (List.insertionSort itsRowLe trows).any
        (fun r => strLeB it r.time) = true := by
      rcases trows with _ | ⟨r0, rest⟩
      · exact absurd rfl hne2
      · exact List.any_eq_true.mpr
          ⟨r0, (List.perm_insertionSort itsRowLe _).mem_iff.mpr (by simp),
            hall r0 (by simp)⟩
    exact ⟨_, by unfold interrupted_time_series; rw [if_pos hany]⟩

/-- Witness for C10 on a panel observed only at period "5" with intervention
time "1": no pre-period, one donor, uniform weight 1. -/
theorem synthetic_control_empty_pre_period_witness :
    ∃ res, synthetic_control scRowsNoPre "T" "1" none = some res ∧
      res.weights = (scDonors scRowsNoPre "T" none).map
        (fun u => (u, 1 / ((scDonors scRowsNoPre "T" none).length : ℚ))) ∧
      res.pre_mse = none ∧
      res.post_gap_mean = scPostGap scRowsNoPre "T" "1" (scDonors scRowsNoPre "T" none)
        (List.replicate (scDonors scRowsNoPre "T" none).length
          (1 / ((scDonors scRowsNoPre "T" none).length : ℚ))) :=
  (synthetic_control_empty_pre_period scRowsNoPre "T" "1" (by decide) (by decide)).1

/-- Counterexample for C10's contrast clause as stated: in the corresponding
no-pre-period situation (every period at or after the intervention time
"2019"), the ITS estimator does not raise — it returns a result. -/
theorem its_no_pre_period_counterexample :
    (∀ r ∈ itsRowsAllPost, strLeB "2019" r.time = true) ∧
    ∃ res, interrupted_time_series pfun0 0 itsRowsAllPost "2019" = Except.ok res :=
  ⟨by decide, ⟨_, rfl⟩⟩

/-! ## Claim C9: DiD is invariant under row permutation -/

/-- C9: `difference_in_differences` returns the same ATT (the `_int`
coefficient) on any permutation of the panel's rows: the categorical levels
are the sorted distinct values (permutation-invariant), and the Gram matrix
and moment vector of the normal equations are sums over observations, which
only depend on the multiset of rows. -/
theorem did_att_perm_invariant (pfun : PFun) (x_cols : List String)
    (rows1 rows2 : List DRow) (h : rows1.Perm rows2) :
    (difference_in_differences pfun rows1 x_cols).att =
      (difference_in_differences pfun rows2 x_cols).att := by
  have hu : didUnits rows1 = didUnits rows2 := by
    unfold didUnits
    exact sortedUnique_congr_of_perm (h.map _)
  have ht : didTimes rows1 = didTimes rows2 := by
    unfold didTimes
    exact sortedUnique_congr_of_perm (h.map _)
  have hobs : (didObs rows1 x_cols).Perm (didObs rows2 x_cols) := by
    unfold didObs
    rw [hu, ht]
    exact h.map _
  have hm : didM rows1 x_cols = didM rows2 x_cols := by
    unfold didM
    rw [hu, ht]
  simp only [difference_in_differences]
  rw [hm, olsParams_congr_of_perm hobs]

/-- Witness for C9: swapping the two rows of a concrete panel leaves the ATT
unchanged. -/
theorem did_att_perm_invariant_witness :
    (difference_in_differences pfun0
        [⟨"u1", "t1", 1, 1, 0, []⟩, ⟨"u2", "t1", 2, 0, 0, []⟩] []).att =
      (difference_in_differences pfun0
        [⟨"u2", "t1", 2, 0, 0, []⟩, ⟨"u1", "t1", 1, 1, 0, []⟩] []).att :=
  did_att_perm_invariant pfun0 []
    [⟨"u1", "t1", 1, 1, 0, []⟩, ⟨"u2", "t1", 2, 0, 0, []⟩]
    [⟨"u2", "t1", 2, 0, 0, []⟩, ⟨"u1", "t1", 1, 1, 0, []⟩] (by decide)

/-! ## Claim C8: the Fisher pre-period joint test -/

/-- The successful branch of the joint test, fully described in terms of the
looked-up p-values. -/
theorem joint_test_ok (chi2cdf : ℝ → ℝ → ℝ) (coef_by_k p_by_k : List (ℤ × ℝ))
    (k_pre_max : ℤ) (ps0 : List ℝ)
    (hks : jointKs coef_by_k k_pre_max ≠ [])
    (hlk : (jointKs coef_by_k k_pre_max).mapM (fun k => p_by_k.lookup k) = some ps0) :
    event_study_preperiod_joint_test chi2cdf coef_by_k p_by_k k_pre_max =
      Except.ok
        { k_values := jointKs coef_by_k k_pre_max
          f_stat := -2 * ((ps0.map fun p => max (1 / 10 ^ 12) (min 1 p)).map Real.log).sum
          p_value := 1 - chi2cdf
            (-2 * ((ps0.map fun p => max (1 / 10 ^ 12) (min 1 p)).map Real.log).sum)
            (2 * (ps0.length : ℝ))
          df_denom := none
          df_num := 2 * (ps0.length : ℝ) } := by
  have hne : ¬ (jointKs coef_by_k k_pre_max).isEmpty = true := by
    simpa [List.isEmpty_iff] using hks
  simp only [event_study_preperiod_joint_test]
  rw [if_neg hne, hlk]
  simp [List.length_map]

/-- C8 (amended): the joint test combines exactly the p-values at offsets
`≤ k_pre_max`: its statistic is `-2 · Σ log p` over those p-values after
each is clamped into `[1e-12, 1]` (so it equals `-2 · Σ log p` of the raw
p-values whenever they all already lie in that interval), its p-value is the
upper tail `1 - chi2cdf(stat, df)` of a χ² distribution with `df` equal to
twice the count of combined p-values, and recomputing on the same inputs
yields an identical result. -/
theorem joint_test_fisher_formula (chi2cdf : ℝ → ℝ → ℝ)
    (coef_by_k p_by_k : List (ℤ × ℝ)) (k_pre_max : ℤ) (ps0 : List ℝ)
    (hks : jointKs coef_by_k k_pre_max ≠ [])
    (hlk : (jointKs coef_by_k k_pre_max).mapM (fun k => p_by_k.lookup k) = some ps0) :
    (event_study_preperiod_joint_test chi2cdf coef_by_k p_by_k k_pre_max =
      Except.ok
        { k_values := jointKs coef_by_k k_pre_max
          f_stat := -2 * ((ps0.map fun p => max (1 / 10 ^ 12) (min 1 p)).map Real.log).sum
          p_value := 1 - chi2cdf
            (-2 * ((ps0.map fun p => max (1 / 10 ^ 12) (min 1 p)).map Real.log).sum)
            (2 * (ps0.length : ℝ))
          df_denom := none
          df_num := 2 * (ps0.length : ℝ) }) ∧
    ((∀ q ∈ ps0, 1 / 10 ^ 12 ≤ q ∧ q ≤ 1) →
      -2 * ((ps0.map fun p => max (1 / 10 ^ 12) (min 1 p)).map Real.log).sum =
        -2 * (ps0.map Real.log).sum) ∧
    event_study_preperiod_joint_test chi2cdf coef_by_k p_by_k k_pre_max =
      event_study_preperiod_joint_test chi2cdf coef_by_k p_by_k k_pre_max := by
  refine ⟨joint_test_ok chi2cdf coef_by_k p_by_k k_pre_max ps0 hks hlk,
    fun hin => ?_, rfl⟩
  congr 1
  rw [List.map_map]
  refine congrArg List.sum (List.map_congr_left fun q hq => ?_)
  rcases hin q hq with ⟨h1, h2⟩
  simp only [Function.comp]
  rw [min_eq_right h2, max_eq_right h1]

/-- Witness for C8 at a single combined offset −2 with p-value 1/2. -/
theorem joint_test_fisher_formula_witness :
    event_study_preperiod_joint_test cdf0 [(-2, (0 : ℝ))] [(-2, (1 / 2 : ℝ))] (-2) =
      Except.ok
        { k_values := jointKs [(-2, (0 : ℝ))] (-2)
          f_stat := -2 * ((([(1 / 2 : ℝ)]).map fun p =>
            max (1 / 10 ^ 12) (min 1 p)).map Real.log).sum
          p_value := 1 - cdf0
            (-2 * ((([(1 / 2 : ℝ)]).map fun p =>
              max (1 / 10 ^ 12) (min 1 p)).map Real.log).sum)
            (2 * (([(1 / 2 : ℝ)]).length : ℝ))
          df_denom := none
          df_num := 2 * (([(1 / 2 : ℝ)]).length : ℝ) } :=
  (joint_test_fisher_formula cdf0 [(-2, (0 : ℝ))] [(-2, (1 / 2 : ℝ))] (-2)
    [(1 / 2 : ℝ)] (by decide) (by
      rw [show jointKs [(-2, (0 : ℝ))] (-2) = [-2] from by decide]
      rfl)).1

/-- Counterexample for C8 as stated: with the (out-of-range) p-value 2 at
offset −2, the code's statistic is `-2 · log 1 = 0` after clamping, while
the claim's formula `-2 · Σ log p` gives `-2 · log 2 ≠ 0`. -/
theorem joint_test_counterexample_clamping :
    (∃ res, event_study_preperiod_joint_test cdf0 [(-2, (0 : ℝ))] [(-2, (2 : ℝ))] (-2) =
      Except.ok res ∧ res.f_stat = 0) ∧
    -2 * (([(2 : ℝ)]).map Real.log).sum ≠ 0 := by
  constructor
  · have hlk : (jointKs [(-2, (0 : ℝ))] (-2)).mapM
        (fun k => ([(-2, (2 : ℝ))]).lookup k) = some [(2 : ℝ)] := by
      rw [show jointKs [(-2, (0 : ℝ))] (-2) = [-2] from by decide]
      rfl
    have heq := joint_test_ok cdf0 [(-2, (0 : ℝ))] [(-2, (2 : ℝ))] (-2) [(2 : ℝ)]
      (by decide) hlk
    refine ⟨_, heq, ?_⟩
    show -2 * ((([(2 : ℝ)]).map fun p => max (1 / 10 ^ 12) (min 1 p)).map Real.log).sum = 0
    rw [List.map_cons, List.map_nil, List.map_cons, List.map_nil, List.sum_cons,
      List.sum_nil, add_zero, min_eq_left (by norm_num : (1 : ℝ) ≤ 2),
      max_eq_right (by norm_num : (1 / 10 ^ 12 : ℝ) ≤ 1), Real.log_one, mul_zero]
  · simp only [List.map_cons, List.map_nil, List.sum_cons, List.sum_nil, add_zero]
    intro hc
    have h2 : Real.log 2 = 0 := by linarith [mul_eq_zero.mp hc]
    rcases Real.log_eq_zero.mp h2 with h | h | h <;> norm_num at h

/-! ## Claim C7: BIC weights and the model ranking -/

/-- On a non-empty list the `sum(w) or 1.0` branch never fires: the
exponentials are positive, so `bic_weights` is the claimed normalized
exponential formula. -/
theorem bic_weights_eq (bics : List ℝ) (hb : bics ≠ []) :
    bic_weights bics = bics.map fun b =>
      Real.exp (-(1 / 2) * (b - bics.min?.getD 0)) /
        (bics.map fun c => Real.exp (-(1 / 2) * (c - bics.min?.getD 0))).sum := by
  have hs : 0 < (bics.map fun c => Real.exp (-(1 / 2) * (c - bics.min?.getD 0))).sum := by
    refine List.sum_pos _ (fun x hx => ?_) fun hnil => hb (List.map_eq_nil_iff.mp hnil)
    rcases List.mem_map.mp hx with ⟨b, _, rfl⟩
    exact Real.exp_pos _
  simp only [bic_weights]
  rw [if_neg (ne_of_gt hs), List.map_map]
  rfl

/-- C7: for a non-empty BIC list, the weights are the normalized
`exp(-0.5 · (b - min))` values, they sum to 1, any model attaining the
minimum BIC attains the maximum weight, and `compare_did_models` returns
its scores sorted by weight in descending order. -/
theorem bic_weights_simplex_and_ranking (bics : List ℝ) (hb : bics ≠ [])
    (pfun : PFun) (rows : List DRow) (ccs : List (List String)) :
    (bic_weights bics).sum = 1 ∧
    bic_weights bics = (bics.map fun b =>
      Real.exp (-(1 / 2) * (b - bics.min?.getD 0)) /
        (bics.map fun c => Real.exp (-(1 / 2) * (c - bics.min?.getD 0))).sum) ∧
    (∀ i < bics.length, (∀ c ∈ bics, bics.getD i 0 ≤ c) →
      ∀ j, (bic_weights bics).getD j 0 ≤ (bic_weights bics).getD i 0) ∧
    List.Sorted (fun a b : ModelScore => b.weight ≤ a.weight)
      (compare_did_models pfun rows ccs) := by
  have hs : 0 < (bics.map fun c => Real.exp (-(1 / 2) * (c - bics.min?.getD 0))).sum := by
    refine List.sum_pos _ (fun x hx => ?_) fun hnil => hb (List.map_eq_nil_iff.mp hnil)
    rcases List.mem_map.mp hx with ⟨b, _, rfl⟩
    exact Real.exp_pos _
  refine ⟨?_, bic_weights_eq bics hb, ?_, ?_⟩
  · simp only [bic_weights]
    rw [if_neg (ne_of_gt hs), sum_map_div, div_self (ne_of_gt hs)]
  · intro i hi hmin j
    rw [bic_weights_eq bics hb]
    have hgi : (bics.map fun b =>
        Real.exp (-(1 / 2) * (b - bics.min?.getD 0)) /
          (bics.map fun c => Real.exp (-(1 / 2) * (c - bics.min?.getD 0))).sum).getD i 0 =
        Real.exp (-(1 / 2) * (bics.getD i 0 - bics.min?.getD 0)) /
          (bics.map fun c => Real.exp (-(1 / 2) * (c - bics.min?.getD 0))).sum := by
      rw [List.getD_eq_getElem?_getD, List.getElem?_map, List.getElem?_eq_getElem hi,
        List.getD_eq_getElem _ _ hi]
      rfl
    rw [hgi]
    by_cases hj : j < bics.length
    · rw [List.getD_eq_getElem?_getD, List.getElem?_map, List.getElem?_eq_getElem hj]
      ·
        have hmem : bics[j] ∈ bics := List.getElem_mem hj
        have hij : bics.getD i 0 ≤ bics[j] := hmin _ hmem
        refine (div_le_div_iff_of_pos_right hs).mpr ?_
        exact Real.exp_le_exp.mpr (by linarith)
    · have hlen : (bics.map fun b =>
          Real.exp (-(1 / 2) * (b - bics.min?.getD 0)) /
            (bics.map fun c => Real.exp (-(1 / 2) * (c - bics.min?.getD 0))).sum).length ≤ j := by
        rw [List.length_map]
        omega
      rw [List.getD_eq_getElem?_getD, List.getElem?_eq_none hlen]
      exact le_of_lt (by positivity)
  · have hp := @List.sorted_mergeSort ModelScore
      (fun a b : ModelScore => decide (b.weight ≤ a.weight))
      (fun a b c h1 h2 => by
        simp only [decide_eq_true_eq] at h1 h2 ⊢
        exact le_trans h2 h1)
      (fun a b => by
        rcases le_total a.weight b.weight with h | h <;> simp [h])
    simp only [compare_did_models]
    exact List.Pairwise.imp (fun hab => by simpa using hab) (hp _)

/-- Witness for C7 on the singleton BIC list `[0]` and an empty model
comparison. -/
theorem bic_weights_simplex_and_ranking_witness :
    (bic_weights [(0 : ℝ)]).sum = 1 ∧
    List.Sorted (fun a b : ModelScore => b.weight ≤ a.weight)
      (compare_did_models pfun0 [] []) :=
  ⟨(bic_weights_simplex_and_ranking [(0 : ℝ)] (List.cons_ne_nil 0 []) pfun0 [] []).1,
    (bic_weights_simplex_and_ranking [(0 : ℝ)] (List.cons_ne_nil 0 []) pfun0 [] []).2.2.2⟩

end ResearchAssistantAI
